import Mathlib

/-!
Verification of the onionutil core (onion-service descriptors and
Tor-style certificates) against its natural-language specification.

Modelling conventions, used throughout:

* Byte strings are `List Nat` with every element < 256.  Where a claim
  needs the byte bound it appears as an explicit hypothesis or is proved
  from the producing function.
* Go machine arithmetic is `Nat`/`Int` with explicit `% 2^w` at every
  point where the Go code can overflow or truncate (`uint32(x)`,
  `int64` multiplication, `byte(x)`).
* A Go runtime panic (index/slice out of range on attacker-controlled
  input) is modelled by the `GoResult.panicked` constructor; a normal
  return is `GoResult.ok`.  Slices are assumed to have capacity equal
  to length, so Go's slice-expression bound check coincides with the
  length check modelled here.
* `time.Time` values are modelled by their Unix-seconds value as `Int`;
  formatting is modelled in UTC.
-/

set_option maxRecDepth 100000
set_option maxHeartbeats 1000000

namespace Onionutil

/-- ASCII bytes of a literal string, the base representation of all text
in this development. -/
def str (s : String) : List Nat := s.toList.map Char.toNat

/-- Newline byte. -/
def nl : List Nat := [10]

/-- Truncation to 32 bits, Go `uint32` wrap-around. -/
def w32 (x : Nat) : Nat := x % 4294967296

/-- Left rotation of a 32-bit word. -/
def rotl32 (x n : Nat) : Nat := w32 ((x <<< n) ||| (x >>> (32 - n)))

/-- Big-endian 4-byte serialization of a 32-bit value
(`binary.BigEndian.PutUint32` / `binary.Write` with `uint32`). -/
def be32bytes (n : Nat) : List Nat :=
  [n >>> 24 % 256, n >>> 16 % 256, n >>> 8 % 256, n % 256]

/-- Big-endian 8-byte serialization of a 64-bit value, used in SHA-1
message padding. -/
def be64bytes (n : Nat) : List Nat :=
  [n >>> 56 % 256, n >>> 48 % 256, n >>> 40 % 256, n >>> 32 % 256,
   n >>> 24 % 256, n >>> 16 % 256, n >>> 8 % 256, n % 256]

/-! ## SHA-1 (`crypto/sha1`, the fixed 20-byte digest used throughout
the repository as `Hash`) -/

/-- SHA-1 round constant for round `t`. -/
def sha1K (t : Nat) : Nat :=
  if t < 20 then 0x5A827999
  else if t < 40 then 0x6ED9EBA1
  else if t < 60 then 0x8F1BBCDC
  else 0xCA62C1D6

/-- SHA-1 round mixing function for round `t`. -/
def sha1F (t b c d : Nat) : Nat :=
  if t < 20 then (b &&& c) ||| ((b ^^^ 4294967295) &&& d)
  else if t < 40 then b ^^^ c ^^^ d
  else if t < 60 then (b &&& c) ||| (b &&& d) ||| (c &&& d)
  else b ^^^ c ^^^ d

/-- SHA-1 padding: append `0x80`, zero bytes up to 56 mod 64, and the
original bit length as 8 big-endian bytes. -/
def sha1Pad (msg : List Nat) : List Nat :=
  msg ++ [128] ++ List.replicate ((119 - (msg.length % 64)) % 64) 0
      ++ be64bytes (8 * msg.length)

/-- Grouping of a byte list into big-endian 32-bit words. -/
def bytesToWords : List Nat → List Nat
  | a :: b :: c :: d :: rest =>
      (((a * 256 + b) * 256 + c) * 256 + d) :: bytesToWords rest
  | _ => []

/-- Message-schedule extension: `acc` holds the words produced so far in
reverse order; each step prepends
`rotl1 (w(t-3) xor w(t-8) xor w(t-14) xor w(t-16))`. -/
def sha1Extend : Nat → List Nat → List Nat
  | 0, acc => acc
  | n + 1, acc =>
      sha1Extend n
        (rotl32 ((acc.getD 2 0) ^^^ (acc.getD 7 0) ^^^ (acc.getD 13 0)
          ^^^ (acc.getD 15 0)) 1 :: acc)

/-- One SHA-1 round on the five-word working state, consuming the round
index and the scheduled word. -/
def sha1Round (st : Nat × Nat × Nat × Nat × Nat) (tw : Nat × Nat) :
    Nat × Nat × Nat × Nat × Nat :=
  (w32 (rotl32 st.1 5 + sha1F tw.1 st.2.1 st.2.2.1 st.2.2.2.1
      + st.2.2.2.2 + sha1K tw.1 + tw.2),
   st.1, rotl32 st.2.1 30, st.2.2.1, st.2.2.2.1)

/-- Compression of a single 64-byte block into the running hash state. -/
def sha1Block (h : Nat × Nat × Nat × Nat × Nat) (block : List Nat) :
    Nat × Nat × Nat × Nat × Nat :=
  let ws := (sha1Extend 64 (bytesToWords block).reverse).reverse
  let fin := ws.enum.foldl sha1Round h
  (w32 (h.1 + fin.1), w32 (h.2.1 + fin.2.1), w32 (h.2.2.1 + fin.2.2.1),
   w32 (h.2.2.2.1 + fin.2.2.2.1), w32 (h.2.2.2.2 + fin.2.2.2.2))

/-- Iteration over all 64-byte blocks; `fuel` bounds the recursion and is
instantiated with the padded message length. -/
def sha1Blocks : Nat → (Nat × Nat × Nat × Nat × Nat) → List Nat →
    Nat × Nat × Nat × Nat × Nat
  | 0, h, _ => h
  | _ + 1, h, [] => h
  | fuel + 1, h, msg => sha1Blocks fuel (sha1Block h (msg.take 64)) (msg.drop 64)

/-- SHA-1 initial state. -/
def sha1Init : Nat × Nat × Nat × Nat × Nat :=
  (0x67452301, 0xEFCDAB89, 0x98BADCFE, 0x10325476, 0xC3D2E1F0)

/-- Big-endian bytes of one 32-bit word of the digest. -/
def word32Bytes (w : Nat) : List Nat :=
  [w >>> 24 % 256, w >>> 16 % 256, w >>> 8 % 256, w % 256]

/-- SHA-1 of a byte string, producing the 20-byte digest. -/
def sha1 (msg : List Nat) : List Nat :=
  let padded := sha1Pad msg
  let h := sha1Blocks padded.length sha1Init padded
  word32Bytes h.1 ++ word32Bytes h.2.1 ++ word32Bytes h.2.2.1
    ++ word32Bytes h.2.2.2.1 ++ word32Bytes h.2.2.2.2

/-- Translation of `common.go` `Hash`: SHA-1 of the input. -/
def Hash (data : List Nat) : List Nat := sha1 data

theorem word32Bytes_lt (w : Nat) : ∀ x ∈ word32Bytes w, x < 256 := by
  simp only [word32Bytes, List.mem_cons, List.not_mem_nil, or_false]
  intro x hx
  rcases hx with h | h | h | h <;> subst h <;> exact Nat.mod_lt _ (by norm_num)

theorem sha1_mem_lt (msg : List Nat) : ∀ x ∈ sha1 msg, x < 256 := by
  simp only [sha1, List.mem_append]
  intro x hx
  rcases hx with ((((h | h) | h) | h) | h) <;> exact word32Bytes_lt _ x h

theorem sha1_ne_nil (msg : List Nat) : sha1 msg ≠ [] := by
  simp [sha1, word32Bytes]

/-! ## Base32 (`encoding/base32` `StdEncoding`, RFC 4648 with padding),
wrapped by `common.go` `Base32Encode`/`Base32Decode` with case folding -/

/-- Character of a 5-bit digit in the standard base32 alphabet
`A`..`Z` `2`..`7`. -/
def b32char (d : Nat) : Nat := if d < 26 then 65 + d else 24 + d

/-- Inverse of `b32char`; `none` on bytes outside the alphabet. -/
def b32val (c : Nat) : Option Nat :=
  if 65 ≤ c ∧ c ≤ 90 then some (c - 65)
  else if 50 ≤ c ∧ c ≤ 55 then some (c - 24)
  else none

/-- Encoding of one full 5-byte group into 8 base32 characters. -/
def b32enc5 (b0 b1 b2 b3 b4 : Nat) : List Nat :=
  let n := (((b0 * 256 + b1) * 256 + b2) * 256 + b3) * 256 + b4
  [b32char (n >>> 35 % 32), b32char (n >>> 30 % 32), b32char (n >>> 25 % 32),
   b32char (n >>> 20 % 32), b32char (n >>> 15 % 32), b32char (n >>> 10 % 32),
   b32char (n >>> 5 % 32), b32char (n % 32)]

/-- RFC 4648 base32 encoding with `=` padding (byte 61), as produced by
Go `base32.StdEncoding.EncodeToString`. -/
def b32encode : List Nat → List Nat
  | [] => []
  | [b0] =>
      let n := b0 <<< 2
      [b32char (n >>> 5 % 32), b32char (n % 32)] ++ [61, 61, 61, 61, 61, 61]
  | [b0, b1] =>
      let n := (b0 * 256 + b1) <<< 4
      [b32char (n >>> 15 % 32), b32char (n >>> 10 % 32), b32char (n >>> 5 % 32),
       b32char (n % 32)] ++ [61, 61, 61, 61]
  | [b0, b1, b2] =>
      let n := ((b0 * 256 + b1) * 256 + b2) <<< 1
      [b32char (n >>> 20 % 32), b32char (n >>> 15 % 32), b32char (n >>> 10 % 32),
       b32char (n >>> 5 % 32), b32char (n % 32)] ++ [61, 61, 61]
  | [b0, b1, b2, b3] =>
      let n := (((b0 * 256 + b1) * 256 + b2) * 256 + b3) <<< 3
      [b32char (n >>> 30 % 32), b32char (n >>> 25 % 32), b32char (n >>> 20 % 32),
       b32char (n >>> 15 % 32), b32char (n >>> 10 % 32), b32char (n >>> 5 % 32),
       b32char (n % 32)] ++ [61]
  | b0 :: b1 :: b2 :: b3 :: b4 :: rest => b32enc5 b0 b1 b2 b3 b4 ++ b32encode rest

/-- Mapping of a character list through `b32val`, failing on the first
invalid character. -/
def b32vals : List Nat → Option (List Nat)
  | [] => some []
  | c :: rest =>
      match b32val c, b32vals rest with
      | some d, some ds => some (d :: ds)
      | _, _ => none

/-- Value of a big-endian base-32 digit list. -/
def b32num (ds : List Nat) : Nat := ds.foldl (fun a d => a * 32 + d) 0

/-- Five data bytes of a 40-bit group value. -/
def b32groupBytes (n : Nat) : List Nat :=
  [n >>> 32 % 256, n >>> 24 % 256, n >>> 16 % 256, n >>> 8 % 256, n % 256]

/-- Decoding of one 8-character base32 block: the padding layout fixes
the data-character count (8, 7, 5, 4 or 2); the digits are reassembled
into the group value and the declared number of bytes extracted. -/
def b32decodeBlock (c0 c1 c2 c3 c4 c5 c6 c7 : Nat) : Option (List Nat) :=
  if c2 = 61 ∧ c3 = 61 ∧ c4 = 61 ∧ c5 = 61 ∧ c6 = 61 ∧ c7 = 61 then
    (b32vals [c0, c1]).map fun ds => (b32groupBytes (b32num ds <<< 30)).take 1
  else if c4 = 61 ∧ c5 = 61 ∧ c6 = 61 ∧ c7 = 61 then
    (b32vals [c0, c1, c2, c3]).map fun ds => (b32groupBytes (b32num ds <<< 20)).take 2
  else if c5 = 61 ∧ c6 = 61 ∧ c7 = 61 then
    (b32vals [c0, c1, c2, c3, c4]).map fun ds => (b32groupBytes (b32num ds <<< 15)).take 3
  else if c7 = 61 then
    (b32vals [c0, c1, c2, c3, c4, c5, c6]).map fun ds => (b32groupBytes (b32num ds <<< 5)).take 4
  else
    (b32vals [c0, c1, c2, c3, c4, c5, c6, c7]).map fun ds => b32groupBytes (b32num ds)

/-- RFC 4648 base32 decoding with `=` padding: the input length must be a
multiple of 8 and a padded block must be final, as in Go
`base32.StdEncoding.DecodeString`. -/
def b32decode : List Nat → Option (List Nat)
  | [] => some []
  | c0 :: c1 :: c2 :: c3 :: c4 :: c5 :: c6 :: c7 :: rest =>
      match b32decodeBlock c0 c1 c2 c3 c4 c5 c6 c7, b32decode rest with
      | some bs, some tail =>
          if bs.length < 5 ∧ rest ≠ [] then none else some (bs ++ tail)
      | _, _ => none
  | _ => none

/-- ASCII lower-casing of one byte (`strings.ToLower` on ASCII input). -/
def toLowerByte (c : Nat) : Nat := if 65 ≤ c ∧ c ≤ 90 then c + 32 else c

/-- ASCII upper-casing of one byte (`strings.ToUpper` on ASCII input). -/
def toUpperByte (c : Nat) : Nat := if 97 ≤ c ∧ c ≤ 122 then c - 32 else c

/-- Translation of `common.go` `Base32Encode`: standard base32, then
lower-cased. -/
def Base32Encode (b : List Nat) : List Nat := (b32encode b).map toLowerByte

/-- Translation of `common.go` `Base32Decode`: upper-case, then standard
base32 decoding. -/
def Base32Decode (s : List Nat) : Option (List Nat) :=
  b32decode (s.map toUpperByte)

/-! ## Base64 and PEM (`encoding/base64`, `encoding/pem`), standard
codecs used by descriptor serialization and the document tokenizer -/

/-- Character of a 6-bit digit in the standard base64 alphabet. -/
def b64char (d : Nat) : Nat :=
  if d < 26 then 65 + d
  else if d < 52 then 71 + d
  else if d < 62 then d - 4
  else if d = 62 then 43
  else 47

/-- Inverse of `b64char`. -/
def b64val (c : Nat) : Option Nat :=
  if 65 ≤ c ∧ c ≤ 90 then some (c - 65)
  else if 97 ≤ c ∧ c ≤ 122 then some (c - 71)
  else if 48 ≤ c ∧ c ≤ 57 then some (c + 4)
  else if c = 43 then some 62
  else if c = 47 then some 63
  else none

/-- RFC 4648 base64 encoding with `=` padding
(`base64.StdEncoding.EncodeToString`). -/
def b64encode : List Nat → List Nat
  | [] => []
  | [b0] =>
      let n := b0 <<< 4
      [b64char (n >>> 6 % 64), b64char (n % 64), 61, 61]
  | [b0, b1] =>
      let n := (b0 * 256 + b1) <<< 2
      [b64char (n >>> 12 % 64), b64char (n >>> 6 % 64), b64char (n % 64), 61]
  | b0 :: b1 :: b2 :: rest =>
      let n := (b0 * 256 + b1) * 256 + b2
      [b64char (n >>> 18 % 64), b64char (n >>> 12 % 64), b64char (n >>> 6 % 64),
       b64char (n % 64)] ++ b64encode rest

/-- Mapping of a character list through `b64val`. -/
def b64vals : List Nat → Option (List Nat)
  | [] => some []
  | c :: rest =>
      match b64val c, b64vals rest with
      | some d, some ds => some (d :: ds)
      | _, _ => none

/-- Value of a big-endian base-64 digit list. -/
def b64num (ds : List Nat) : Nat := ds.foldl (fun a d => a * 64 + d) 0

/-- RFC 4648 base64 decoding with `=` padding. -/
def b64decode : List Nat → Option (List Nat)
  | [] => some []
  | c0 :: c1 :: c2 :: c3 :: rest =>
      if c2 = 61 ∧ c3 = 61 then
        match b64vals [c0, c1], rest with
        | some ds, [] => some [b64num ds <<< 12 >>> 16 % 256]
        | _, _ => none
      else if c3 = 61 then
        match b64vals [c0, c1, c2], rest with
        | some ds, [] =>
            let n := b64num ds <<< 6
            some [n >>> 16 % 256, n >>> 8 % 256]
        | _, _ => none
      else
        match b64vals [c0, c1, c2, c3], b64decode rest with
        | some ds, some tail =>
            let n := b64num ds
            some ([n >>> 16 % 256, n >>> 8 % 256, n % 256] ++ tail)
        | _, _ => none
  | _ => none

/-- Splitting of a character list into lines of at most 64 characters;
`fuel` bounds the recursion. -/
def wrap64 : Nat → List Nat → List (List Nat)
  | 0, _ => []
  | _ + 1, [] => []
  | fuel + 1, l => l.take 64 :: wrap64 fuel (l.drop 64)

/-- PEM encoding as produced by `pem.EncodeToMemory` for a block with no
headers: BEGIN line, base64 body wrapped at 64 columns with each line
newline-terminated, END line. -/
def pemEncode (label : List Nat) (data : List Nat) : List Nat :=
  str "-----BEGIN " ++ label ++ str "-----" ++ nl
    ++ (wrap64 (data.length + 2) (b64encode data)).foldr
        (fun line acc => line ++ nl ++ acc) []
    ++ str "-----END " ++ label ++ str "-----" ++ nl

/-! ## DER public-key codec.

Modelled from the spec: the external `pkcs1` DER key codec
(`EncodePublicKeyDER(pubkey) -> bytes, Error`,
`DecodePublicKeyDER(bytes) -> pubkey, remainder, Error`) is part of the
repository but not under `src/`; the spec consumes it as a black-box
codec.  It is modelled here as the PKCS#1 `RSAPublicKey ::= SEQUENCE {
modulus INTEGER, publicExponent INTEGER }` DER encoding of the key pair
of non-negative integers, with minimal-length integer contents and
short/long-form lengths up to two length bytes.  Encoding is total
(encoding a well-formed in-memory key cannot fail), so the Go error
return is omitted. -/

/-- RSA public key, mirroring Go `rsa.PublicKey` (`N *big.Int`, `E int`)
as a pair of non-negative integers. -/
structure RSAPublicKey where
  N : Nat
  E : Nat
deriving DecidableEq

/-- Minimal big-endian byte representation of a natural number; `fuel`
bounds the recursion. -/
def natBEaux : Nat → Nat → List Nat → List Nat
  | 0, _, acc => acc
  | fuel + 1, v, acc => if v = 0 then acc else natBEaux fuel (v / 256) (v % 256 :: acc)

/-- Minimal big-endian bytes of a natural number (`[0]` for zero). -/
def natBEbytes (v : Nat) : List Nat := if v = 0 then [0] else natBEaux v v []

/-- DER length bytes (short form below 128, long form with one or two
length bytes above). -/
def derLenBytes (n : Nat) : List Nat :=
  if n < 128 then [n]
  else if n < 256 then [129, n]
  else [130, n / 256, n % 256]

/-- DER INTEGER encoding of a non-negative value (tag 2, leading zero
byte when the high bit is set). -/
def derUint (v : Nat) : List Nat :=
  let bs := natBEbytes v
  let content := if 128 ≤ bs.headD 0 then 0 :: bs else bs
  [2] ++ derLenBytes content.length ++ content

/-- Modelled from the spec: `pkcs1.EncodePublicKeyDER`, the DER
`SEQUENCE` of the two key integers. -/
def encodePublicKeyDER (pk : RSAPublicKey) : List Nat :=
  let content := derUint pk.N ++ derUint pk.E
  [48] ++ derLenBytes content.length ++ content

/-- Reading of DER length bytes, returning the length and remainder. -/
def derReadLen : List Nat → Option (Nat × List Nat)
  | l :: rest =>
      if l < 128 then some (l, rest)
      else if l = 129 then
        match rest with
        | a :: r2 => some (a, r2)
        | [] => none
      else if l = 130 then
        match rest with
        | a :: b :: r2 => some (a * 256 + b, r2)
        | _ => none
      else none
  | [] => none

/-- Numeric value of big-endian content bytes. -/
def beNum (bs : List Nat) : Nat := bs.foldl (fun a b => a * 256 + b) 0

/-- Reading of one DER INTEGER, returning its value and the remainder. -/
def derReadUint : List Nat → Option (Nat × List Nat)
  | 2 :: rest =>
      match derReadLen rest with
      | some (len, r2) =>
          if 0 < len ∧ len ≤ r2.length then some (beNum (r2.take len), r2.drop len)
          else none
      | none => none
  | _ => none

/-- Modelled from the spec: `pkcs1.DecodePublicKeyDER`, returning the key
and the unconsumed remainder, or `none` on malformed input. -/
def decodePublicKeyDER (bs : List Nat) : Option (RSAPublicKey × List Nat) :=
  match bs with
  | 48 :: rest =>
      match derReadLen rest with
      | some (len, r2) =>
          if len ≤ r2.length then
            match derReadUint (r2.take len) with
            | some (n, b2) =>
                match derReadUint b2 with
                | some (e, b3) =>
                    if b3 = [] then some (⟨n, e⟩, r2.drop len) else none
                | none => none
            | none => none
          else none
      | none => none
  | _ => none

/-! ## Decimal formatting and parsing -/

/-- Decimal digits of a natural number, most significant first; `fuel`
bounds the recursion. -/
def natDecimalAux : Nat → Nat → List Nat → List Nat
  | 0, _, acc => acc
  | fuel + 1, v, acc => if v = 0 then acc else natDecimalAux fuel (v / 10) ((48 + v % 10) :: acc)

/-- Decimal ASCII representation of a natural number (`fmt` `%d`). -/
def natDecimal (v : Nat) : List Nat := if v = 0 then [48] else natDecimalAux v v []

/-- Decimal ASCII representation of an integer, with `-` sign. -/
def intDecimal (v : Int) : List Nat :=
  if v < 0 then 45 :: natDecimal (-v).toNat else natDecimal v.toNat

/-- Comma-joined concatenation (`strings.Join` with `","`). -/
def joinComma : List (List Nat) → List Nat
  | [] => []
  | [x] => x
  | x :: xs => x ++ [44] ++ joinComma xs

/-- Accumulating decimal-digit parser: fails on any non-digit byte. -/
def digitsValAux : List Nat → Nat → Option Nat
  | [], acc => some acc
  | c :: rest, acc =>
      if 48 ≤ c ∧ c ≤ 57 then digitsValAux rest (acc * 10 + (c - 48)) else none

/-- Translation of `strconv.ParseInt(s, 10, 0)`: optional sign, at least
one digit, 64-bit signed range (out-of-range input is an error, as the
caller treats the error as fatal for the record). -/
def parseIntGo (s : List Nat) : Option Int :=
  match s with
  | [] => none
  | 43 :: rest =>
      match rest, digitsValAux rest 0 with
      | _ :: _, some v => if v ≤ 9223372036854775807 then some (v : Int) else none
      | _, _ => none
  | 45 :: rest =>
      match rest, digitsValAux rest 0 with
      | _ :: _, some v => if v ≤ 9223372036854775808 then some (-(v : Int)) else none
      | _, _ => none
  | _ =>
      match digitsValAux s 0 with
      | some v => if v ≤ 9223372036854775807 then some (v : Int) else none
      | none => none

/-! ## Time formatting (`time.Time.Format` with layout
`"2006-01-02 15:04:05"`); times are Unix seconds rendered in UTC -/

/-- Civil date (year, month, day) of a day count since the Unix epoch
(days-from-civil inverse, proleptic Gregorian calendar). -/
def civilFromDays (z0 : Int) : Int × Nat × Nat :=
  let z := z0 + 719468
  let era := z.fdiv 146097
  let doe := (z - era * 146097).toNat
  let yoe := (doe - doe / 1460 + doe / 36524 - doe / 146096) / 365
  let doy := doe - (365 * yoe + yoe / 4 - yoe / 100)
  let mp := (5 * doy + 2) / 153
  let d := doy - (153 * mp + 2) / 5 + 1
  let m := if mp < 10 then mp + 3 else mp - 9
  ((yoe : Int) + era * 400 + (if m ≤ 2 then 1 else 0), m, d)

/-- Two-digit zero-padded decimal. -/
def pad2 (v : Nat) : List Nat := if v < 10 then [48, 48 + v] else natDecimal v

/-- Four-digit zero-padded decimal (year field). -/
def pad4 (v : Nat) : List Nat :=
  if v < 10 then [48, 48, 48, 48 + v]
  else if v < 100 then [48, 48] ++ natDecimal v
  else if v < 1000 then [48] ++ natDecimal v
  else natDecimal v

/-- Formatting of a Unix-seconds timestamp as `"YYYY-MM-DD HH:MM:SS"`
(UTC). -/
def formatTime (sec : Int) : List Nat :=
  let days := sec.fdiv 86400
  let sod := (sec - days * 86400).toNat
  let c := civilFromDays days
  pad4 c.1.toNat ++ [45] ++ pad2 c.2.1 ++ [45] ++ pad2 c.2.2 ++ [32]
    ++ pad2 (sod / 3600) ++ [58] ++ pad2 (sod % 3600 / 60) ++ [58] ++ pad2 (sod % 60)

/-! ## Onion descriptor data model (`oniondesc.go`) -/

/-- Outcome of a Go function call whose only failure mode is a runtime
panic: `panicked` models an uncaught index/slice-out-of-range trap,
`ok` a normal return. -/
inductive GoResult (α : Type) where
  | panicked
  | ok (val : α)
deriving DecidableEq

/-- Sequencing in panic-propagating code. -/
def GoResult.bind {α β : Type} : GoResult α → (α → GoResult β) → GoResult β
  | .panicked, _ => .panicked
  | .ok a, f => f a

/-- Translation of the `OnionDescriptor` struct.  `publicationTime` is
the Unix-seconds value of the Go `time.Time` field. -/
structure OnionDescriptor where
  descID : List Nat
  version : Int
  permanentKey : RSAPublicKey
  secretIDPart : List Nat
  publicationTime : Int
  protocolVersions : List Int
  intropointsBlock : List Nat
  signature : List Nat
deriving DecidableEq

/-- Package-level constant `MinReplica` (read-only after init). -/
def MinReplica : Int := 0

/-- Package-level constant `MaxReplica`. -/
def MaxReplica : Int := 1

/-- Package-level constant `DescVersion`. -/
def DescVersion : Int := 2

/-- Package-level constant `ProtocolVersions`. -/
def ProtocolVersions : List Int := [2, 3]

/-- Unix-seconds value of the zero `time.Time` (January 1, year 1 UTC),
the publication time of a freshly zero-initialized descriptor. -/
def goTimeZero : Int := -62135596800

/-- Zero value of `OnionDescriptor` (`var desc OnionDescriptor`); the
nil `*rsa.PublicKey` is modelled as the zero key. -/
def descZero : OnionDescriptor :=
  { descID := [], version := 0, permanentKey := ⟨0, 0⟩, secretIDPart := [],
    publicationTime := goTimeZero, protocolVersions := [], intropointsBlock := [],
    signature := [] }

/-- Translation of `common.go` `RSAPubkeyHash`: SHA-1 of the DER key
encoding.  DER encoding is total in this model, so the Go error return
is omitted. -/
def RSAPubkeyHash (pk : RSAPublicKey) : List Nat := Hash (encodePublicKeyDER pk)

/-- Translation of `common.go` `CalcPermanentId` (called
`CalcPermanentID` at its use site in `oniondesc.go`): first 10 bytes of
the key hash. -/
def CalcPermanentId (pk : RSAPublicKey) : List Nat := (RSAPubkeyHash pk).take 10

/-- Translation of `calcSecretID`.  Go `uint32` arithmetic is modelled
with explicit `% 2^32`: `uint32(currentTime)` truncates the `int64`
time, and the sum may wrap before the division by 86400.  The `% 256`
on the first permanent-id byte and on the replica records that both are
Go `byte` values.  `permID[0]` on an empty list is modelled by
`headD 0`; the argument is always a 10-byte hash prefix at call sites. -/
def calcSecretID (permID : List Nat) (currentTime : Int) (replica : Nat) : List Nat :=
  let permIDByte := (permID.headD 0) % 256
  let timePeriodInt :=
    ((currentTime.emod 4294967296).toNat + permIDByte * 86400 % 4294967296 / 256)
      % 4294967296 / 86400
  sha1 (be32bytes timePeriodInt ++ [replica % 256])

/-- Translation of `calcDescriptorID`: hash of the concatenation. -/
def calcDescriptorID (permID secretID : List Nat) : List Nat :=
  sha1 (permID ++ secretID)

/-- Translation of `(*OnionDescriptor).Update`.  `time.Now().Unix()` is
passed explicitly as `now`.  The replica condition is the code's
literal `!(MinReplica <= replica || replica <= MaxReplica)`.  The
permanent-id derivation cannot fail in this model (total DER encoding),
so that error return is dead here as it is for every well-formed key in
the Go code. -/
def OnionDescriptor.Update (desc : OnionDescriptor) (replica : Int) (now : Int) :
    Option (List Nat) × OnionDescriptor :=
  let d2 : OnionDescriptor :=
    { desc with
      version := DescVersion
      protocolVersions := ProtocolVersions
      publicationTime := now - Int.tmod now 3600 }
  let permID := CalcPermanentId d2.permanentKey
  if ¬ (MinReplica ≤ replica ∨ replica ≤ MaxReplica) then
    (some (str "Replica is out of range"), d2)
  else
    let secret := calcSecretID permID now ((replica.emod 256).toNat)
    (none, { d2 with secretIDPart := secret, descID := calcDescriptorID permID secret })

/-- Translation of `(*OnionDescriptor).Bytes`, the canonical text
serialization.  DER encoding is total here, so the `log.Fatalf` branch
is dead; time is rendered in UTC. -/
def OnionDescriptor.Bytes (desc : OnionDescriptor) : List Nat :=
  str "rendezvous-service-descriptor " ++ Base32Encode desc.descID ++ nl
    ++ str "version " ++ intDecimal desc.version ++ nl
    ++ str "permanent-key" ++ nl
    ++ pemEncode (str "RSA PUBLIC KEY") (encodePublicKeyDER desc.permanentKey)
    ++ str "secret-id-part " ++ Base32Encode desc.secretIDPart ++ nl
    ++ str "publication-time " ++ formatTime desc.publicationTime ++ nl
    ++ str "protocol-versions " ++ joinComma (desc.protocolVersions.map intDecimal) ++ nl
    ++ (if 0 < desc.intropointsBlock.length then
          str "introduction-points" ++ nl ++ pemEncode (str "MESSAGE") desc.intropointsBlock
        else [])
    ++ str "signature" ++ nl
    ++ (if 0 < desc.signature.length then pemEncode (str "SIGNATURE") desc.signature else [])

/-- Translation of `(*OnionDescriptor).Sign`: hashes the serialization
of the descriptor as it stands (the signature field is not cleared
first), calls the signing callback, and stores the resulting signature;
on callback failure the descriptor is returned unchanged. -/
def OnionDescriptor.Sign (desc : OnionDescriptor)
    (doSign : List Nat → Except (List Nat) (List Nat)) :
    Option (List Nat) × OnionDescriptor :=
  match doSign (Hash desc.Bytes) with
  | .error e => (some e, desc)
  | .ok signature => (none, { desc with signature := signature })

/-- Translation of `(*OnionDescriptor).VerifySignature`: saves the
signature, clears it, hashes the serialization, restores the signature,
and checks it with the external `rsa.VerifyPKCS1v15` primitive, passed
in as `rsaVerify` (key, digest, signature; `true` models a nil error).
The returned descriptor is the descriptor value after the call. -/
def OnionDescriptor.VerifySignature (desc : OnionDescriptor)
    (rsaVerify : RSAPublicKey → List Nat → List Nat → Bool) :
    Bool × OnionDescriptor :=
  let signature := desc.signature
  let cleared : OnionDescriptor := { desc with signature := [] }
  let digest := Hash cleared.Bytes
  let restored : OnionDescriptor := { cleared with signature := signature }
  (rsaVerify restored.permanentKey digest signature, restored)

/-! ## Certificate codec (`common.go` `ParseCertFromBytes`).

The Go function performs no bounds checks and never assigns its `err`
result: every return site returns `err = nil`, and malformed input is
stopped only by the runtime's index/slice bounds trap.  Accordingly the
model returns `GoResult.ok cert` exactly when the Go function returns
`(cert, nil)` and `GoResult.panicked` when the Go code panics.  Slices
are assumed to have capacity equal to length. -/

/-- Translation of the `Extension` struct. -/
structure Extension where
  type : Nat
  flags : Nat
  data : List Nat
deriving DecidableEq

/-- Translation of the `Certificate` struct; `expirationDate` is the
Unix-seconds value, `extensions` the type-keyed map as an association
list. -/
structure Certificate where
  version : Nat
  certType : Nat
  expirationDate : Int
  certKeyType : Nat
  certifiedKey : List Nat
  nExtensions : Nat
  extensions : List (Nat × Extension)
  signature : List Nat
  pubkeySign : Bool
deriving DecidableEq

/-- Go index expression `b[i]`: panics when out of range. -/
def gbyte (b : List Nat) (i : Nat) : GoResult Nat :=
  if i < b.length then .ok (b.getD i 0) else .panicked

/-- Go slice expression `b[i : i+len]`: panics when the upper bound
exceeds the length (capacity). -/
def gslice (b : List Nat) (i len : Nat) : GoResult (List Nat) :=
  if i + len ≤ b.length then .ok ((b.drop i).take len) else .panicked

/-- Go's `uint64` wrap-around reinterpreted as a signed `int64`, for the
overflowing `Duration` multiplication. -/
def int64wrap (n : Nat) : Int :=
  let m := n % 18446744073709551616
  if m < 9223372036854775808 then (m : Int) else (m : Int) - 18446744073709551616

/-- Whole seconds of an `int64` nanosecond duration,
`int64(d.Seconds())`.  `d.Seconds()` is
`float64(d / 1e9) + float64(d % 1e9) / 1e9`; whenever the remainder is
zero (every non-overflowing hour duration) the float is an exact
integer below 2^53 and the conversion is exact, so truncating division
is the faithful model there.  In the overflow cases used below the
float result differs from this model by at most one second, which
cannot bridge the divergences being exhibited. -/
def durationSecondsInt (d : Int) : Int := Int.tdiv d 1000000000

/-- Duplicate-type overwrite insertion into the extensions map
(`cert.Extensions[extension.Type] = extension`). -/
def insertExt (m : List (Nat × Extension)) (ext : Extension) : List (Nat × Extension) :=
  m.filter (fun p => p.1 != ext.type) ++ [(ext.type, ext)]

/-- Translation of the extension-parsing loop: for each of the declared
extensions, a 2-byte big-endian length, a type byte, a flags byte, and
`length` data bytes; returns the map and the final cursor. -/
def parseExtsLoop (b : List Nat) : Nat → Nat → List (Nat × Extension) →
    GoResult (List (Nat × Extension) × Nat)
  | i, 0, m => .ok (m, i)
  | i, e + 1, m =>
      (gbyte b i).bind fun l0 =>
      (gbyte b (i + 1)).bind fun l1 =>
      (gbyte b (i + 2)).bind fun ty =>
      (gbyte b (i + 3)).bind fun fl =>
      (gslice b (i + 4) (l0 * 256 + l1)).bind fun data =>
      parseExtsLoop b (i + 4 + (l0 * 256 + l1)) e (insertExt m ⟨ty, fl, data⟩)

/-- Translation of `ParseCertFromBytes`: fixed-cursor sequential decode
of version, cert type, expiration hours, key type, 32-byte key,
extension count, the extension list, and the 64-byte signature. -/
def ParseCertFromBytes (b : List Nat) : GoResult Certificate :=
  (gbyte b 0).bind fun version =>
  (gbyte b 1).bind fun certType =>
  (gbyte b 2).bind fun h0 =>
  (gbyte b 3).bind fun h1 =>
  (gbyte b 4).bind fun h2 =>
  (gbyte b 5).bind fun h3 =>
  (gbyte b 6).bind fun certKeyType =>
  (gslice b 7 32).bind fun certifiedKey =>
  (gbyte b 39).bind fun nExt =>
  (parseExtsLoop b 40 nExt []).bind fun extsI =>
  (gslice b extsI.2 64).bind fun signature =>
  .ok { version := version, certType := certType,
        expirationDate :=
          durationSecondsInt
            (int64wrap ((((h0 * 256 + h1) * 256 + h2) * 256 + h3) * 3600000000000)),
        certKeyType := certKeyType, certifiedKey := certifiedKey,
        nExtensions := nExt, extensions := extsI.1, signature := signature,
        pubkeySign := false }

/-! ## Document tokenizer.

Modelled from the spec: the external `torparse.ParseTorDocument` is
part of the repository but not under `src/`.  Per the spec's tokenizer
contract it splits a text blob into an ordered collection of records,
each a mapping from keyword to a structure exposing "all values joined"
(`FJoined`) and a list of argument token lists; a PEM object following
a keyword line is decoded and attached as a value of that keyword.  A
record boundary is drawn when a keyword repeats.  The mapping is
modelled as an association list; looking up an absent keyword yields
the Go zero value, the empty entries slice, and indexing that nil slice
panics — which is exactly the Go map/slice semantics the calling code
under `src/` is subject to.  All input is consumed (`rest = []`). -/

/-- One item occurrence: its argument tokens (with an attached PEM
object's decoded bytes appended as a final token). -/
abbrev TorEntry : Type := List (List Nat)

/-- All occurrences of one keyword, in document order.  The zero value
of this slice type is `[]`. -/
abbrev TorEntries : Type := List TorEntry

/-- One tokenized record: keyword-indexed entries. -/
abbrev TorDoc : Type := List (List Nat × TorEntries)

/-- Map lookup `doc[kw]`, returning the zero value on a missing key. -/
def docEntries (doc : TorDoc) (kw : List Nat) : TorEntries :=
  match doc.find? (fun p => p.1 == kw) with
  | some p => p.2
  | none => []

/-- Comma-ok presence test `_, ok := doc[kw]`. -/
def docHasKey (doc : TorDoc) (kw : List Nat) : Bool :=
  (doc.find? (fun p => p.1 == kw)).isSome

/-- Modelled from the spec: `FJoined`, all values of a keyword joined
into one byte string. -/
def FJoined (doc : TorDoc) (kw : List Nat) : List Nat :=
  ((docEntries doc kw).map (fun e => e.flatten)).flatten

/-- Addition of a new occurrence of a keyword to a record. -/
def docAppend (doc : TorDoc) (kw : List Nat) (entry : TorEntry) : TorDoc :=
  match doc with
  | [] => [(kw, [entry])]
  | p :: rest =>
      if p.1 == kw then (p.1, p.2 ++ [entry]) :: rest else p :: docAppend rest kw entry

/-- Appending an object token to the last occurrence in an entries
slice. -/
def attachLast (es : TorEntries) (obj : List Nat) : TorEntries :=
  match es with
  | [] => [[obj]]
  | [e] => [e ++ [obj]]
  | e :: rest => e :: attachLast rest obj

/-- Attaching a decoded PEM object to the given keyword's latest
occurrence. -/
def docAttachObj (doc : TorDoc) (kw : List Nat) (obj : List Nat) : TorDoc :=
  match doc with
  | [] => []
  | p :: rest =>
      if p.1 == kw then (p.1, attachLast p.2 obj) :: rest else p :: docAttachObj rest kw obj

/-- Newline splitting of the input blob. -/
def splitLinesAux : List Nat → List Nat → List (List Nat)
  | [], cur => [cur.reverse]
  | 10 :: rest, cur => cur.reverse :: splitLinesAux rest []
  | c :: rest, cur => splitLinesAux rest (c :: cur)

/-- Lines of a byte blob. -/
def splitLines (bs : List Nat) : List (List Nat) := splitLinesAux bs []

/-- Space splitting of a keyword line into tokens. -/
def splitWordsAux : List Nat → List Nat → List (List Nat)
  | [], cur => if cur.isEmpty then [] else [cur.reverse]
  | 32 :: rest, cur =>
      if cur.isEmpty then splitWordsAux rest [] else cur.reverse :: splitWordsAux rest []
  | c :: rest, cur => splitWordsAux rest (c :: cur)

/-- Tokens of a line. -/
def splitWords (l : List Nat) : List (List Nat) := splitWordsAux l []

/-- Collection of the base64 body lines of a PEM object up to its END
line; returns the concatenated body and the remaining lines. -/
def gatherObj : Nat → List (List Nat) → List Nat → List Nat × List (List Nat)
  | 0, lines, acc => (acc, lines)
  | _ + 1, [], acc => (acc, [])
  | fuel + 1, line :: rest, acc =>
      if (str "-----END ").isPrefixOf line then (acc, rest)
      else gatherObj fuel rest (acc ++ line)

/-- Record-building loop over the lines: keyword lines add entries, a
repeated keyword starts a new record, PEM blocks attach their decoded
object to the most recent keyword. -/
def tokenizeAux : Nat → List (List Nat) → List TorDoc → TorDoc → Option (List Nat) →
    List TorDoc
  | 0, _, docs, cur, _ => docs ++ (if cur.isEmpty then [] else [cur])
  | _ + 1, [], docs, cur, _ => docs ++ (if cur.isEmpty then [] else [cur])
  | fuel + 1, line :: rest, docs, cur, lastKw =>
      if line.isEmpty then tokenizeAux fuel rest docs cur lastKw
      else if (str "-----BEGIN ").isPrefixOf line then
        let g := gatherObj (rest.length + 1) rest []
        let obj := match b64decode g.1 with | some o => o | none => []
        let cur2 := match lastKw with
          | some kw => docAttachObj cur kw obj
          | none => cur
        tokenizeAux fuel g.2 docs cur2 lastKw
      else
        match splitWords line with
        | [] => tokenizeAux fuel rest docs cur lastKw
        | kw :: args =>
            if docHasKey cur kw then
              tokenizeAux fuel rest (docs ++ [cur]) [(kw, [args])] (some kw)
            else
              tokenizeAux fuel rest docs (docAppend cur kw args) (some kw)

/-- Modelled from the spec: `torparse.ParseTorDocument`, the record
collection and the unconsumed remainder. -/
def ParseTorDocument (bs : List Nat) : List TorDoc × List Nat :=
  let lines := splitLines bs
  (tokenizeAux (lines.length + 1) lines [] [] none, [])

/-! ## Descriptor-set parsing (`ParseOnionDescriptors`) -/

/-- Translation of the per-record loop of `ParseOnionDescriptors`:
records without the descriptor marker, with malformed version, with an
undecodable key, or with a present-but-empty signature field are
skipped; `doc["signature"][0]` on a record with no signature keyword at
all indexes the zero-value nil slice and panics. -/
def parseDescDocs : List TorDoc → GoResult (List OnionDescriptor)
  | [] => .ok []
  | doc :: rest =>
      if docHasKey doc (str "rendezvous-service-descriptor") = false then
        parseDescDocs rest
      else
        match parseIntGo (FJoined doc (str "version")) with
        | none => parseDescDocs rest
        | some version =>
            match decodePublicKeyDER (FJoined doc (str "permanent-key")) with
            | none => parseDescDocs rest
            | some pkr =>
                match docEntries doc (str "signature") with
                | [] => .panicked
                | e0 :: _ =>
                    if e0.length < 1 then parseDescDocs rest
                    else
                      match parseDescDocs rest with
                      | .panicked => .panicked
                      | .ok descs =>
                          .ok ({ descZero with
                                  descID := FJoined doc (str "rendezvous-service-descriptor")
                                  version := version
                                  permanentKey := pkr.1
                                  intropointsBlock := FJoined doc (str "introduction-points")
                                  signature := FJoined doc (str "signature") } :: descs)

/-- Translation of `ParseOnionDescriptors`: tokenize, then fold the
per-record parser over the records, returning the descriptors (or the
panic) and the tokenizer's unconsumed remainder. -/
def ParseOnionDescriptors (descsData : List Nat) :
    GoResult (List OnionDescriptor) × List Nat :=
  let t := ParseTorDocument descsData
  (parseDescDocs t.1, t.2)

/-! ## Concrete values used by witnesses and counterexamples -/

/-- Small RSA public key used in concrete evaluations. -/
def pkA : RSAPublicKey := ⟨187, 7⟩

/-- Concrete descriptor with a distinguishable pre-update state. -/
def descA : OnionDescriptor :=
  { descID := [], version := 9, permanentKey := pkA, secretIDPart := [],
    publicationTime := 0, protocolVersions := [], intropointsBlock := [],
    signature := [] }

/-! ## Claim theorems -/

/-- C7: for every descriptor and every verification primitive,
`VerifySignature` leaves the descriptor exactly as it was — the
signature field is restored after the temporary clearing and no other
field is changed, on the success and the failure path alike. -/
theorem verifySignature_restores_descriptor
    (rsaVerify : RSAPublicKey → List Nat → List Nat → Bool)
    (desc : OnionDescriptor) :
    (desc.VerifySignature rsaVerify).2 = desc := by
  cases desc
  rfl

/-- C9: for every input timestamp (and any replica), the publication
time stored by `Update` is the input with its sub-hour remainder
discarded, and it is divisible by 3600; this holds on the error path as
well since the field is set before any return. -/
theorem update_publicationTime_hour_boundary
    (desc : OnionDescriptor) (replica now : Int) :
    (desc.Update replica now).2.publicationTime = now - Int.tmod now 3600 ∧
    Int.tmod (desc.Update replica now).2.publicationTime 3600 = 0 := by
  have hfield : (desc.Update replica now).2.publicationTime = now - Int.tmod now 3600 := by
    unfold OnionDescriptor.Update
    split <;> rfl
  refine ⟨hfield, ?_⟩
  rw [hfield]
  have h := Int.tdiv_add_tmod now 3600
  have h2 : now - now.tmod 3600 = 3600 * now.tdiv 3600 := by omega
  rw [h2, Int.mul_tmod_right]

/-- C1 (exhibiting the code bug): `Update` with the out-of-range
replica values 2 and -1 returns no error at all — the guard
`!(MinReplica <= replica || replica <= MaxReplica)` is false for every
integer — and the descriptor is mutated, contradicting the claimed
range error and non-mutation. -/
theorem update_out_of_range_replica_not_rejected :
    (descA.Update 2 1000000).1 = none ∧
    (descA.Update 2 1000000).2 ≠ descA ∧
    (descA.Update (-1) 1000000).1 = none := by
  refine ⟨by decide, ?_, by decide⟩
  intro h
  have : (descA.Update 2 1000000).2.version = descA.version := by rw [h]
  revert this
  decide

/-! ## Certificate-parse bounds and expiration claims -/

theorem gbyte_ok {b : List Nat} {i : Nat} (h : i < b.length) :
    gbyte b i = .ok (b.getD i 0) := by
  unfold gbyte
  rw [if_pos h]

theorem gbyte_panic {b : List Nat} {i : Nat} (h : ¬ i < b.length) :
    gbyte b i = .panicked := by
  unfold gbyte
  rw [if_neg h]

theorem gslice_ok {b : List Nat} {i len : Nat} (h : i + len ≤ b.length) :
    gslice b i len = .ok ((b.drop i).take len) := by
  unfold gslice
  rw [if_pos h]

theorem gslice_panic {b : List Nat} {i len : Nat} (h : ¬ i + len ≤ b.length) :
    gslice b i len = .panicked := by
  unfold gslice
  rw [if_neg h]

theorem gbyte_ok_inv {b : List Nat} {i v : Nat} (h : gbyte b i = .ok v) :
    v = b.getD i 0 := by
  unfold gbyte at h
  split at h
  · cases h
    rfl
  · cases h

/-- Complete certificate header (1+1+4+1+32+1 = 40 bytes) declaring one
extension whose declared length 50 exceeds the 3 remaining bytes. -/
def certTrunc : List Nat :=
  [5, 4, 0, 0, 3, 232, 7] ++ List.replicate 32 1 ++ [1] ++ [0, 50, 9, 8] ++ [1, 2, 3]

/-- Variant truncated buffer (declared extension length 100, one byte of
data) used by the witness of the amended bounds claim. -/
def certTrunc2 : List Nat :=
  [5, 4, 0, 0, 3, 232, 7] ++ List.replicate 32 1 ++ [1] ++ [0, 100, 9, 8] ++ [1]

/-- C2 counterexample: on a concrete buffer whose declared extension
length exceeds the remaining bytes, `ParseCertFromBytes` does not
return a bounds error — the Go function never assigns its error result
at all — but hits the runtime index-out-of-range trap, modelled by
`panicked`.  This refutes the claim that parsing "returns a bounds
error cleanly ... and does not panic/crash". -/
theorem parseCert_truncated_no_clean_error :
    ParseCertFromBytes certTrunc = .panicked := by decide

/-- C2 amended: for every buffer long enough to reach the first declared
extension (length at least 42, extension count at least 1) whose first
extension's declared 2-byte big-endian length exceeds the remaining
bytes, certificate parsing performs no out-of-bounds read — the
offending access is refused — but it aborts with the runtime
index-out-of-range panic instead of returning an error value. -/
theorem parseCert_overlong_extension_panics (b : List Nat)
    (hlen : 42 ≤ b.length)
    (hext : 1 ≤ b.getD 39 0)
    (hover : b.length < 44 + (b.getD 40 0 * 256 + b.getD 41 0)) :
    ParseCertFromBytes b = .panicked := by
  obtain ⟨m, hm⟩ : ∃ m, b.getD 39 0 = m + 1 := ⟨b.getD 39 0 - 1, by omega⟩
  have hloop : parseExtsLoop b 40 (b.getD 39 0) [] = .panicked := by
    rw [hm]
    simp only [parseExtsLoop]
    rw [gbyte_ok (show 40 < b.length by omega), gbyte_ok (show 41 < b.length by omega)]
    simp only [GoResult.bind]
    by_cases h42 : 42 < b.length
    · rw [gbyte_ok h42]
      simp only [GoResult.bind]
      by_cases h43 : 43 < b.length
      · rw [gbyte_ok h43]
        simp only [GoResult.bind]
        rw [gslice_panic (by omega)]
      · rw [gbyte_panic h43]
    · rw [gbyte_panic h42]
  unfold ParseCertFromBytes
  rw [gbyte_ok (show 0 < b.length by omega), gbyte_ok (show 1 < b.length by omega),
     gbyte_ok (show 2 < b.length by omega), gbyte_ok (show 3 < b.length by omega),
     gbyte_ok (show 4 < b.length by omega), gbyte_ok (show 5 < b.length by omega),
     gbyte_ok (show 6 < b.length by omega), gslice_ok (show 7 + 32 ≤ b.length by omega),
     gbyte_ok (show 39 < b.length by omega)]
  simp only [GoResult.bind]
  rw [hloop]

theorem parseCert_overlong_extension_panics_witness :
    ParseCertFromBytes certTrunc2 = .panicked :=
  parseCert_overlong_extension_panics certTrunc2 (by decide) (by decide) (by decide)

/-- Expiration seconds of a successfully parsed certificate. -/
def parsedExpiration (b : List Nat) : Option Int :=
  match ParseCertFromBytes b with
  | .ok c => some c.expirationDate
  | .panicked => none

/-- Certificate buffer with hour count 2^31 = 2147483648 (bytes
`80 00 00 00`), zero extensions. -/
def certOvf : List Nat :=
  [5, 4, 128, 0, 0, 0, 7] ++ List.replicate 32 1 ++ [0] ++ List.replicate 64 2

/-- C8 counterexample: for the wire hour count 2^31 the parse succeeds
but stores 1755365915 seconds, not the claimed
2147483648 * 3600 = 7730941132800: the `int64` nanosecond duration
`hours * time.Hour` overflows.  So the claimed formula does not hold
for all 2^32 hour-count values. -/
theorem parseCert_expiration_overflow :
    parsedExpiration certOvf = some 1755365915 ∧
    (1755365915 : Int) ≠ 2147483648 * 3600 := by
  constructor
  · decide
  · decide

theorem durationSeconds_small (h : Nat) (hs : h ≤ 2562047) :
    durationSecondsInt (int64wrap (h * 3600000000000)) = (h : Int) * 3600 := by
  have hn : h * 3600000000000 < 9223372036854775808 := by omega
  unfold int64wrap
  rw [Nat.mod_eq_of_lt (by omega)]
  rw [if_pos (by exact_mod_cast hn)]
  unfold durationSecondsInt
  have hcast : ((h * 3600000000000 : Nat) : Int) = ((h : Int) * 3600) * 1000000000 := by
    push_cast
    ring
  rw [hcast, Int.mul_tdiv_cancel _ (by norm_num)]

/-- C8 amended: whenever `ParseCertFromBytes` returns a certificate and
the 4-byte big-endian hour count at offset 2 is at most 2562047 (the
largest hour count whose nanosecond duration fits in `int64`), the
stored expiration equals the Unix epoch plus `hours * 3600` seconds;
for larger hour counts the duration multiplication overflows and the
stored value diverges, as the counterexample shows. -/
theorem parseCert_expiration_hours (b : List Nat) (c : Certificate)
    (hok : ParseCertFromBytes b = .ok c)
    (hsmall : ((b.getD 2 0 * 256 + b.getD 3 0) * 256 + b.getD 4 0) * 256 + b.getD 5 0
      ≤ 2562047) :
    c.expirationDate =
      ((((b.getD 2 0 * 256 + b.getD 3 0) * 256 + b.getD 4 0) * 256 + b.getD 5 0 : Nat) : Int)
        * 3600 := by
  unfold ParseCertFromBytes at hok
  cases h0 : gbyte b 0 with
  | panicked => rw [h0] at hok; simp [GoResult.bind] at hok
  | ok v0 =>
  rw [h0] at hok
  simp only [GoResult.bind] at hok
  cases h1 : gbyte b 1 with
  | panicked => rw [h1] at hok; simp [GoResult.bind] at hok
  | ok v1 =>
  rw [h1] at hok
  simp only [GoResult.bind] at hok
  cases h2 : gbyte b 2 with
  | panicked => rw [h2] at hok; simp [GoResult.bind] at hok
  | ok v2 =>
  rw [h2] at hok
  simp only [GoResult.bind] at hok
  cases h3 : gbyte b 3 with
  | panicked => rw [h3] at hok; simp [GoResult.bind] at hok
  | ok v3 =>
  rw [h3] at hok
  simp only [GoResult.bind] at hok
  cases h4 : gbyte b 4 with
  | panicked => rw [h4] at hok; simp [GoResult.bind] at hok
  | ok v4 =>
  rw [h4] at hok
  simp only [GoResult.bind] at hok
  cases h5 : gbyte b 5 with
  | panicked => rw [h5] at hok; simp [GoResult.bind] at hok
  | ok v5 =>
  rw [h5] at hok
  simp only [GoResult.bind] at hok
  cases h6 : gbyte b 6 with
  | panicked => rw [h6] at hok; simp [GoResult.bind] at hok
  | ok v6 =>
  rw [h6] at hok
  simp only [GoResult.bind] at hok
  cases h7 : gslice b 7 32 with
  | panicked => rw [h7] at hok; simp [GoResult.bind] at hok
  | ok vk =>
  rw [h7] at hok
  simp only [GoResult.bind] at hok
  cases h8 : gbyte b 39 with
  | panicked => rw [h8] at hok; simp [GoResult.bind] at hok
  | ok v8 =>
  rw [h8] at hok
  simp only [GoResult.bind] at hok
  cases h9 : parseExtsLoop b 40 v8 [] with
  | panicked => rw [h9] at hok; simp [GoResult.bind] at hok
  | ok v9 =>
  rw [h9] at hok
  simp only [GoResult.bind] at hok
  cases h10 : gslice b v9.2 64 with
  | panicked => rw [h10] at hok; simp [GoResult.bind] at hok
  | ok v10 =>
  rw [h10] at hok
  simp only [GoResult.bind] at hok
  cases hok
  rw [gbyte_ok_inv h2, gbyte_ok_inv h3, gbyte_ok_inv h4, gbyte_ok_inv h5]
  exact durationSeconds_small _ hsmall

/-- Certificate buffer with the small hour count 1000, zero
extensions. -/
def certHrs : List Nat :=
  [5, 4, 0, 0, 3, 232, 7] ++ List.replicate 32 1 ++ [0] ++ List.replicate 64 2

/-- The certificate parsed from `certHrs`. -/
def certHrsParsed : Certificate :=
  { version := 5, certType := 4, expirationDate := 3600000, certKeyType := 7,
    certifiedKey := List.replicate 32 1, nExtensions := 0, extensions := [],
    signature := List.replicate 64 2, pubkeySign := false }

theorem parseCert_expiration_hours_witness :
    certHrsParsed.expirationDate =
      ((((certHrs.getD 2 0 * 256 + certHrs.getD 3 0) * 256 + certHrs.getD 4 0) * 256
        + certHrs.getD 5 0 : Nat) : Int) * 3600 :=
  parseCert_expiration_hours certHrs certHrsParsed (by decide) (by decide)

/-! ## Descriptor-identifier derivation claim -/

theorem headD_take {l : List Nat} : (l.take 10).headD 0 = l.headD 0 := by
  cases l <;> rfl

theorem sha1_headD_lt (msg : List Nat) : (sha1 msg).headD 0 < 256 := by
  cases h : sha1 msg with
  | nil => exact absurd h (sha1_ne_nil msg)
  | cons x xs =>
    have hx : x ∈ sha1 msg := by
      rw [h]
      exact List.mem_cons_self x xs
    simpa using sha1_mem_lt msg x hx

/-- Claim-side formula: the spec's time period
`(t + firstByte(permanentId)*86400/256) / 86400` with integer
division. -/
def specTimePeriod (permId : List Nat) (t : Nat) : Nat :=
  (t + permId.headD 0 * 86400 / 256) / 86400

/-- Claim-side formula: the spec's
`descriptorId = Hash(permanentId || Hash(BE32(timePeriod) || r))` with
`permanentId` the first 10 bytes of `Hash(DER(publicKey))`. -/
def specDescriptorId (pk : RSAPublicKey) (t r : Nat) : List Nat :=
  Hash ((Hash (encodePublicKeyDER pk)).take 10
    ++ Hash (be32bytes (specTimePeriod ((Hash (encodePublicKeyDER pk)).take 10) t) ++ [r]))

/-- C6: for every replica in {0,1}, every public key and every current
Unix time (non-negative and below 2^32 - 86062, i.e. any time up to the
year 2106, where the code's `uint32` arithmetic cannot wrap), `Update`
succeeds and stores exactly the claimed
`descriptorId = Hash(permanentId || Hash(BE32(timePeriod) || r))`. -/
theorem update_descriptorId_formula (desc : OnionDescriptor) (replica now : Int)
    (hr : replica = 0 ∨ replica = 1) (h0 : 0 ≤ now) (h1 : now < 4294881234) :
    (desc.Update replica now).1 = none ∧
    (desc.Update replica now).2.descID =
      specDescriptorId desc.permanentKey now.toNat replica.toNat := by
  have hor : MinReplica ≤ replica ∨ replica ≤ MaxReplica := by
    unfold MinReplica MaxReplica
    omega
  have hp0 : ((sha1 (encodePublicKeyDER desc.permanentKey)).take 10).headD 0 < 256 := by
    rw [headD_take]
    exact sha1_headD_lt _
  have hTP : (((now.emod 4294967296).toNat
        + ((sha1 (encodePublicKeyDER desc.permanentKey)).take 10).headD 0 % 256
          * 86400 % 4294967296 / 256) % 4294967296) / 86400
      = specTimePeriod ((sha1 (encodePublicKeyDER desc.permanentKey)).take 10) now.toNat := by
    unfold specTimePeriod
    have hnow : (now.emod 4294967296).toNat = now.toNat := by
      have he : now.emod 4294967296 = now % 4294967296 := rfl
      rw [he]
      omega
    rw [hnow, Nat.mod_eq_of_lt hp0, Nat.mod_eq_of_lt (show
      ((sha1 (encodePublicKeyDER desc.permanentKey)).take 10).headD 0 * 86400 < 4294967296
      by omega)]
    have hn : now.toNat < 4294881234 := by omega
    have hs : ((sha1 (encodePublicKeyDER desc.permanentKey)).take 10).headD 0 * 86400 / 256
        ≤ 86062 := by
      have h255 : ((sha1 (encodePublicKeyDER desc.permanentKey)).take 10).headD 0 * 86400
          ≤ 255 * 86400 := by omega
      omega
    rw [Nat.mod_eq_of_lt (by omega)]
  have hRep : (replica.emod 256).toNat % 256 = replica.toNat := by
    rcases hr with h | h <;> subst h <;> decide
  unfold OnionDescriptor.Update
  rw [if_neg (not_not_intro hor)]
  refine ⟨rfl, ?_⟩
  simp only [calcDescriptorID, calcSecretID, specDescriptorId, specTimePeriod, Hash,
    CalcPermanentId, RSAPubkeyHash]
  rw [hRep]
  rw [show (((now.emod 4294967296).toNat
        + ((sha1 (encodePublicKeyDER desc.permanentKey)).take 10).headD 0 % 256
          * 86400 % 4294967296 / 256) % 4294967296) / 86400
      = (now.toNat + ((sha1 (encodePublicKeyDER desc.permanentKey)).take 10).headD 0
          * 86400 / 256) / 86400 from by rw [hTP]; rfl]

theorem update_descriptorId_formula_witness :
    (descA.Update 0 1760200245).1 = none ∧
    (descA.Update 0 1760200245).2.descID =
      specDescriptorId descA.permanentKey ((1760200245 : Int)).toNat ((0 : Int)).toNat :=
  update_descriptorId_formula descA 0 1760200245 (Or.inl rfl) (by decide) (by decide)

/-! ## Signing and verification claims -/

/-- Concrete descriptor that already carries a signature. -/
def descPre : OnionDescriptor :=
  { descID := [1,2,3], version := 2, permanentKey := pkA, secretIDPart := [4,5],
    publicationTime := 3600, protocolVersions := [2,3], intropointsBlock := [],
    signature := [7,7,7] }

/-- C3 counterexample: for a descriptor that is already signed, `Sign`
does not treat the signature field as empty when computing the digest:
with the identity signing callback the stored signature is `Sign`'s
digest, and it differs from the hash of the serialization with the
signature cleared (the digest `Verify` will recompute), so the claimed
digest equation — and with it sign-then-verify for already-signed
descriptors — fails. -/
theorem sign_digest_not_cleared_for_signed :
    (descPre.Sign (fun d => .ok d)).2.signature ≠
      Hash ({ descPre with signature := [] } : OnionDescriptor).Bytes := by decide

/-- C3 amended: for every descriptor whose signature field is empty,
`Sign`'s digest is the hash of the serialization with the signature
empty, so signing with a callback whose signature the verification
primitive accepts for that digest makes `Verify` succeed; and for any
tampered variant (e.g. a changed `permanentKey`, `introductionPointsBlock`
or `publicationTime`) carrying the old signature, `Verify` fails
whenever the primitive rejects that signature against the tampered
cleared-serialization digest — the cryptographic behaviour of the
external RSA primitive enters only through the two stated
hypotheses. -/
theorem sign_then_verify (desc tampered : OnionDescriptor)
    (doSign : List Nat → Except (List Nat) (List Nat))
    (rsaVerify : RSAPublicKey → List Nat → List Nat → Bool)
    (s : List Nat)
    (hunsigned : desc.signature = [])
    (hsig : doSign (Hash desc.Bytes) = .ok s)
    (haccept : rsaVerify desc.permanentKey (Hash desc.Bytes) s = true)
    (hreject : rsaVerify tampered.permanentKey
        (Hash ({ tampered with signature := [] } : OnionDescriptor).Bytes) s = false)
    (htampersig : tampered.signature = s) :
    ((desc.Sign doSign).2.VerifySignature rsaVerify).1 = true ∧
    (tampered.VerifySignature rsaVerify).1 = false := by
  constructor
  · obtain ⟨d1, d2, d3, d4, d5, d6, d7, d8⟩ := desc
    simp only at hunsigned
    subst hunsigned
    unfold OnionDescriptor.Sign
    rw [hsig]
    unfold OnionDescriptor.VerifySignature
    exact haccept
  · obtain ⟨t1, t2, t3, t4, t5, t6, t7, t8⟩ := tampered
    simp only at htampersig
    subst htampersig
    unfold OnionDescriptor.VerifySignature
    exact hreject

/-- The unsigned variant of `descPre`. -/
def descU : OnionDescriptor := { descPre with signature := [] }

/-- Identity signing callback used by the witness. -/
def doSignId : List Nat → Except (List Nat) (List Nat) := fun d => .ok d

/-- Verification primitive of the witness: accepts exactly the digest
itself as signature. -/
def rsaVerifyEq : RSAPublicKey → List Nat → List Nat → Bool := fun _ d s => d == s

/-- The signed `descU` with its publication time tampered afterwards. -/
def descTampered : OnionDescriptor :=
  { descU with publicationTime := 7200, signature := Hash descU.Bytes }

theorem sign_then_verify_witness :
    ((descU.Sign doSignId).2.VerifySignature rsaVerifyEq).1 = true ∧
    (descTampered.VerifySignature rsaVerifyEq).1 = false :=
  sign_then_verify descU descTampered doSignId rsaVerifyEq (Hash descU.Bytes)
    rfl rfl (by decide) (by decide) rfl

/-! ## Descriptor parsing claims -/

/-- C4 counterexample: parsing the serialization of the concrete
unsigned descriptor `descU` through the tokenizer pipeline yields NO
descriptor at all — the record is skipped because its serialized
signature field is empty — so it does not yield a descriptor equal to
`descU` in all fields. -/
theorem parse_serialize_unsigned_empty :
    ParseOnionDescriptors descU.Bytes = (.ok [], []) ∧
    (GoResult.ok [] : GoResult (List OnionDescriptor)) ≠ .ok [descU] := by
  constructor
  · decide
  · decide

/-- C4 amended: the serialization of an unsigned descriptor parses to
no descriptors (the empty-signature record is skipped); and whatever
the tokenizer produces, every descriptor `ParseOnionDescriptors`
returns has an empty `secretIdPart`, empty `protocolVersions` and the
zero publication time — the parser never reads the `secret-id-part`,
`publication-time` or `protocol-versions` fields, so these fields are
not recovered by any round trip. -/
theorem parse_never_recovers_derived_fields :
    ParseOnionDescriptors descU.Bytes = (.ok [], []) ∧
    ∀ docs descs, parseDescDocs docs = .ok descs → ∀ d ∈ descs,
      d.secretIDPart = [] ∧ d.protocolVersions = [] ∧ d.publicationTime = goTimeZero := by
  constructor
  · decide
  · intro docs
    induction docs with
    | nil =>
      intro descs h d hd
      unfold parseDescDocs at h
      cases h
      simp at hd
    | cons doc rest ih =>
      intro descs h d hd
      unfold parseDescDocs at h
      split at h
      · exact ih descs h d hd
      · split at h
        · exact ih descs h d hd
        · split at h
          · exact ih descs h d hd
          · split at h
            · cases h
            · split at h
              · exact ih descs h d hd
              · split at h
                · cases h
                · rename_i heq
                  cases h
                  rcases List.mem_cons.mp hd with hde | hdm
                  · subst hde
                    exact ⟨rfl, rfl, rfl⟩
                  · exact ih _ heq d hdm

/-- A well-formed tokenized descriptor record. -/
def goodDoc : TorDoc :=
  [(str "rendezvous-service-descriptor", [[str "aebag==="]]),
   (str "version", [[str "2"]]),
   (str "permanent-key", [[encodePublicKeyDER pkA]]),
   (str "signature", [[[9,9,9,9]]])]

/-- The descriptor parsed from `goodDoc`. -/
def dParsed : OnionDescriptor :=
  { descZero with
    descID := str "aebag==="
    version := 2
    permanentKey := pkA
    intropointsBlock := []
    signature := [9,9,9,9] }

theorem parse_never_recovers_derived_fields_witness :
    parseDescDocs [goodDoc] = .ok [dParsed] ∧
    (dParsed.secretIDPart = [] ∧ dParsed.protocolVersions = [] ∧
     dParsed.publicationTime = goTimeZero) :=
  ⟨by decide, parse_never_recovers_derived_fields.2 [goodDoc] [dParsed] (by decide)
     dParsed (List.mem_cons_self dParsed [])⟩

/-- A tokenized record with marker, valid version and decodable key but
no signature keyword at all. -/
def noSigDoc : TorDoc :=
  [(str "rendezvous-service-descriptor", [[str "xyz"]]),
   (str "version", [[str "2"]]),
   (str "permanent-key", [[encodePublicKeyDER pkA]])]

/-- C5 (exhibiting the code bug): a batch holding just the well-formed
record parses to exactly one descriptor, but adding a record that is
missing the signature field makes `ParseOnionDescriptors` panic —
`doc["signature"][0]` indexes the zero-value nil slice — instead of
skipping the record, so the function does not degrade per-record as
claimed and the two-record batch does not return one descriptor. -/
theorem parse_batch_missing_signature_panics :
    parseDescDocs [goodDoc] = .ok [dParsed] ∧
    parseDescDocs [goodDoc, noSigDoc] = .panicked := by
  constructor
  · decide
  · decide

/-! ## Base32 round-trip claim -/

theorem b32_case_fold_lt : ∀ d < 32, toUpperByte (toLowerByte (b32char d)) = b32char d := by decide

theorem b32_case_fold (e : Nat) :
    toUpperByte (toLowerByte (b32char (e % 32))) = b32char (e % 32) :=
  b32_case_fold_lt (e % 32) (Nat.mod_lt e (by norm_num))

theorem b32_case_fold_pad : toUpperByte (toLowerByte 61) = 61 := by decide

theorem b32val_b32char_lt : ∀ d < 32, b32val (b32char d) = some d := by decide

theorem b32val_b32char (e : Nat) : b32val (b32char (e % 32)) = some (e % 32) :=
  b32val_b32char_lt (e % 32) (Nat.mod_lt e (by norm_num))

theorem b32char_ne_pad_lt : ∀ d < 32, ¬ b32char d = 61 := by decide

theorem b32char_ne_pad (e : Nat) : ¬ b32char (e % 32) = 61 :=
  b32char_ne_pad_lt (e % 32) (Nat.mod_lt e (by norm_num))

theorem b32encode_case_fold (b : List Nat) :
    ((b32encode b).map toLowerByte).map toUpperByte = b32encode b := by
  induction b using b32encode.induct with
  | case1 => rfl
  | case2 b0 => simp [b32encode, List.map_append, b32_case_fold, b32_case_fold_pad]
  | case3 b0 b1 => simp [b32encode, List.map_append, b32_case_fold, b32_case_fold_pad]
  | case4 b0 b1 b2 => simp [b32encode, List.map_append, b32_case_fold, b32_case_fold_pad]
  | case5 b0 b1 b2 b3 => simp [b32encode, List.map_append, b32_case_fold, b32_case_fold_pad]
  | case6 b0 b1 b2 b3 b4 rest ih =>
      simp [b32encode, b32enc5, List.map_append, b32_case_fold, b32_case_fold_pad, ih]

theorem b32decode_b32encode :
    ∀ b : List Nat, (∀ x ∈ b, x < 256) → b32decode (b32encode b) = some b := by
  intro b
  induction b using b32encode.induct with
  | case1 => intro h; rfl
  | case2 b0 =>
      intro h
      have hb0 : b0 < 256 := h b0 (by simp)
      simp only [b32encode, List.cons_append, List.nil_append]
      simp only [b32decode, b32decodeBlock]
      rw [if_pos (by simp)]
      simp only [b32vals, b32val_b32char]
      simp only [b32num, List.foldl, b32groupBytes, Option.map_some]
      simp only [List.take, Nat.shiftLeft_eq, Nat.shiftRight_eq_div_pow]
      norm_num
      omega
  | case3 b0 b1 =>
      intro h
      have hb0 : b0 < 256 := h b0 (by simp)
      have hb1 : b1 < 256 := h b1 (by simp)
      simp only [b32encode, List.cons_append, List.nil_append]
      simp only [b32decode, b32decodeBlock]
      rw [if_neg (by simp [b32char_ne_pad])]
      rw [if_pos (by simp)]
      simp only [b32vals, b32val_b32char]
      simp only [b32num, List.foldl, b32groupBytes, Option.map_some]
      simp only [List.take, Nat.shiftLeft_eq, Nat.shiftRight_eq_div_pow]
      norm_num
      omega
  | case4 b0 b1 b2 =>
      intro h
      have hb0 : b0 < 256 := h b0 (by simp)
      have hb1 : b1 < 256 := h b1 (by simp)
      have hb2 : b2 < 256 := h b2 (by simp)
      simp only [b32encode, List.cons_append, List.nil_append]
      simp only [b32decode, b32decodeBlock]
      rw [if_neg (by simp [b32char_ne_pad])]
      rw [if_neg (by simp [b32char_ne_pad])]
      rw [if_pos (by simp)]
      simp only [b32vals, b32val_b32char]
      simp only [b32num, List.foldl, b32groupBytes, Option.map_some]
      simp only [List.take, Nat.shiftLeft_eq, Nat.shiftRight_eq_div_pow]
      norm_num
      omega
  | case5 b0 b1 b2 b3 =>
      intro h
      have hb0 : b0 < 256 := h b0 (by simp)
      have hb1 : b1 < 256 := h b1 (by simp)
      have hb2 : b2 < 256 := h b2 (by simp)
      have hb3 : b3 < 256 := h b3 (by simp)
      simp only [b32encode, List.cons_append, List.nil_append]
      simp only [b32decode, b32decodeBlock]
      rw [if_neg (by simp [b32char_ne_pad])]
      rw [if_neg (by simp [b32char_ne_pad])]
      rw [if_neg (by simp [b32char_ne_pad])]
      rw [if_pos (by simp)]
      simp only [b32vals, b32val_b32char]
      simp only [b32num, List.foldl, b32groupBytes, Option.map_some]
      simp only [List.take, Nat.shiftLeft_eq, Nat.shiftRight_eq_div_pow]
      norm_num
      omega
  | case6 b0 b1 b2 b3 b4 rest ih =>
      intro h
      have hb0 : b0 < 256 := h b0 (by simp)
      have hb1 : b1 < 256 := h b1 (by simp)
      have hb2 : b2 < 256 := h b2 (by simp)
      have hb3 : b3 < 256 := h b3 (by simp)
      have hb4 : b4 < 256 := h b4 (by simp)
      have hrest : ∀ x ∈ rest, x < 256 := fun x hx => h x (by simp [hx])
      simp only [b32encode, b32enc5, List.cons_append, List.nil_append]
      simp only [b32decode, b32decodeBlock]
      rw [if_neg (by simp [b32char_ne_pad])]
      rw [if_neg (by simp [b32char_ne_pad])]
      rw [if_neg (by simp [b32char_ne_pad])]
      rw [if_neg (by simp [b32char_ne_pad])]
      simp only [b32vals, b32val_b32char]
      rw [ih hrest]
      simp only [b32num, List.foldl, b32groupBytes, Option.map_some]
      simp only [List.length, Nat.shiftLeft_eq, Nat.shiftRight_eq_div_pow]
      norm_num
      omega

/-- C10: for every byte list, `Base32Decode (Base32Encode b)` succeeds
and returns `b`: lower-cased standard base32 encoding followed by
upper-casing and standard decoding is a lossless round trip. -/
theorem Base32_roundtrip (b : List Nat) (h : ∀ x ∈ b, x < 256) :
    Base32Decode (Base32Encode b) = some b := by
  unfold Base32Encode Base32Decode
  rw [b32encode_case_fold]
  exact b32decode_b32encode b h

theorem Base32_roundtrip_witness :
    Base32Decode (Base32Encode [222, 173, 190]) = some [222, 173, 190] :=
  Base32_roundtrip [222, 173, 190] (by decide)

end Onionutil
